import Mathlib

/-!
Verification of the NOAA METAR downloader core (`src/ingestion/awc.py`).

The development shallowly embeds the station-registry parser, the
measurement derivation, the ingestion pipeline's record builder and the
date-partitioned deduplicating store, and proves the specified properties
about them.

Python strings are modelled by `String`/`List Char`; Python exceptions are
modelled by `Option`/`Except`; Python `dict` (insertion-ordered, insert or
overwrite by key) is modelled by an association list; the file system seen
by the store is modelled by an association list from date keys to file
contents.
-/

/-- The characters Python `str.strip` / `str.split` treat as whitespace. -/
def pyIsSpace (c : Char) : Bool :=
  c = ' ' || c = '\t' || c = '\n' || c = '\r' || c = '\x0b' || c = '\x0c'

/-- Python `str.strip()` on the underlying character list. -/
def pystripChars (l : List Char) : List Char :=
  ((l.dropWhile pyIsSpace).reverse.dropWhile pyIsSpace).reverse

/-- Python `str.strip()`. -/
def pystrip (s : String) : String :=
  (pystripChars s.toList).asString

/-- Worker for Python `str.split()`: `acc` is the current token, reversed. -/
def pysplitGo : List Char → List Char → List (List Char)
  | [], acc => if acc = [] then [] else [acc.reverse]
  | c :: rest, acc =>
    if pyIsSpace c then
      if acc = [] then pysplitGo rest [] else acc.reverse :: pysplitGo rest []
    else
      pysplitGo rest (c :: acc)

/-- Python `str.split()` (split on whitespace runs, no empty tokens). -/
def pysplit (s : String) : List String :=
  (pysplitGo s.toList []).map List.asString

/-- Numeric value of a digit string (most significant digit first). -/
def digitsVal (l : List Char) : Nat :=
  l.foldl (fun a c => 10 * a + (c.toNat - 48)) 0

/-- Python `int(s)`: strip whitespace, optional sign, then digits;
`none` models the `ValueError` raised on malformed input. -/
def pyint? (s : String) : Option Int :=
  match pystripChars s.toList with
  | [] => none
  | c :: ds =>
    if c = '-' then
      if ds ≠ [] ∧ ds.all Char.isDigit then some (-(digitsVal ds : Int)) else none
    else if c = '+' then
      if ds ≠ [] ∧ ds.all Char.isDigit then some (digitsVal ds : Int) else none
    else if (c :: ds).all Char.isDigit then some (digitsVal (c :: ds) : Int)
    else none

/-- Python slicing `s[a:b]` for `0 ≤ a ≤ b` (the only uses in the source). -/
def pyslice (s : String) (a b : Nat) : String :=
  ((s.toList.drop a).take (b - a)).asString

/-- Python `s[-1]`; `none` models the `IndexError` on an empty string. -/
def pylast? (s : String) : Option Char :=
  s.toList.getLast?

/-- Python `s[:-1]`. -/
def pydropLast (s : String) : String :=
  s.toList.dropLast.asString

/-- Python `s.startswith(pre)`. -/
def pystartsWith (s pre : String) : Bool :=
  pre.toList.isPrefixOf s.toList

/-- `_lng` from `awc.py`: `degree, minute = lngstr.split()`,
`int(degree) + int(minute[:-1]) / 60`, negated when `lngstr[-1] == "W"`.
`none` models the exceptions Python would raise on malformed input. -/
def lngParse (lngstr : String) : Option ℚ :=
  match pysplit lngstr with
  | [degree, minute] => do
    let d ← pyint? degree
    let m ← pyint? (pydropLast minute)
    let absDecimal : ℚ := (d : ℚ) + (m : ℚ) / 60
    let last ← pylast? lngstr
    some (if last = 'W' then -absDecimal else absDecimal)
  | _ => none

/-- `_lat` from `awc.py`: as `_lng` but negated when `latstr[-1] == "S"`. -/
def latParse (latstr : String) : Option ℚ :=
  match pysplit latstr with
  | [degree, minute] => do
    let d ← pyint? degree
    let m ← pyint? (pydropLast minute)
    let absDecimal : ℚ := (d : ℚ) + (m : ℚ) / 60
    let last ← pylast? latstr
    some (if last = 'S' then -absDecimal else absDecimal)
  | _ => none

/-- `Station` from `awc.py`. The Python dataclass annotates `elevation` as
`float`, but the constructor call stores `line[55:59].strip()`, a string, so
the embedding uses `String`. -/
structure Station where
  state_code : String
  name : String
  code4 : String
  longitude : ℚ
  latitude : ℚ
  elevation : String
  raw : String
deriving DecidableEq

/-- Python `d[k] = v` on an insertion-ordered `dict` modelled as an
association list: overwrite in place when the key is present, else append. -/
def dictSet {α β : Type} [DecidableEq α] : List (α × β) → α → β → List (α × β)
  | [], k, v => [(k, v)]
  | (a, b) :: t, k, v =>
    if a = k then (k, v) :: t else (a, b) :: dictSet t k v

/-- Python `d.get(k)` / `d[k]` lookup on the association-list model. -/
def dictGet? {α β : Type} [DecidableEq α] (m : List (α × β)) (k : α) : Option β :=
  (m.find? (fun p => p.1 = k)).map Prod.snd

/-- Python `d.keys()` on the association-list model. -/
def dictKeys {α β : Type} (m : List (α × β)) : List α :=
  m.map Prod.fst

/-- Parse one fixed-width station row (the body of the loop in
`fetch_stations` once a line has passed all three skip tests); `none`
models the exception a malformed coordinate field would raise. -/
def parseStation (line : String) : Option Station := do
  let lat ← latParse (pyslice line 39 46)
  let lng ← lngParse (pyslice line 47 54)
  some
    { state_code := pyslice line 0 2
      name := pystrip (pyslice line 3 19)
      code4 := pyslice line 20 24
      latitude := lat
      longitude := lng
      elevation := pystrip (pyslice line 55 59)
      raw := line }

/-- Loop body of `fetch_stations`: skip blank lines, comment lines and
lines whose length is not 84, otherwise parse the row and store it under
its 4-letter code. -/
def fetchStationsStep (stations : List (String × Station)) (line : String) :
    Option (List (String × Station)) :=
  if pystrip line = "" then some stations
  else if pystartsWith line "!" then some stations
  else if line.length ≠ 84 then some stations
  else do
    let st ← parseStation line
    some (dictSet stations (pyslice line 20 24) st)

/-- `fetch_stations` from `awc.py`, over the list of lines `readlines`
returns; the file-existence check is outside the model. -/
def fetch_stations (lines : List String) : Option (List (String × Station)) :=
  lines.foldlM fetchStationsStep []

/-- The classifier implicit in `fetch_stations`: a line is a station row
iff it is non-blank, does not start with `!`, and is exactly 84 characters
long. -/
def stationRow (line : String) : Bool :=
  pystrip line ≠ "" && !pystartsWith line "!" && line.length = 84

/-- `saturation_vapor_pressure` from `awc.py`:
`611.2 * exp(17.67 * T / (T + 243.5))`, over the reals. -/
noncomputable def saturation_vapor_pressure (temperature_celcius : ℝ) : ℝ :=
  611.2 * Real.exp (17.67 * temperature_celcius / (temperature_celcius + 243.5))

/-- `relative_humidity_from_dewpoint` from `awc.py`: the ratio of the
saturation vapor pressure at the dewpoint to the one at the temperature. -/
noncomputable def relative_humidity_from_dewpoint
    (temperature_celcius dewpoint_celcius : ℝ) : ℝ :=
  saturation_vapor_pressure dewpoint_celcius /
    saturation_vapor_pressure temperature_celcius

/-- A CSV row as the store sees it: `_dump_data` and `_deduplicate_data`
read only the `timestamp` and `rawmetar` columns of a row; the other twelve
CSV columns ride along and are abstracted into `payload`. -/
structure Row where
  timestamp : Nat
  rawmetar : String
  payload : String
deriving DecidableEq

/-- The `YYYYMMDD` date key derived from a record's timestamp
(`datetime.fromtimestamp(float(row['timestamp'])).strftime("%Y%m%d")`),
modelled as the day index `timestamp / 86400`: it distinguishes and orders
calendar days exactly as the `"%Y%m%d"` string does under sorting. -/
def dateKey (ts : Nat) : Nat := ts / 86400

/-- The partition files the store sees: date key ↦ rows of that day's CSV
file. An absent key is an absent file; a file that was only `touch`ed is
the empty row list, matching what `csv.DictReader` yields for it. -/
abbrev PartFs := List (Nat × List Row)

/-- The state of `AwcWeatherStationDataDownloader` that `_dump_data`
touches: the in-memory working set (`self.data`), the date key of the
active partition (`self.data_file_path`), and the partition files. -/
structure StoreState where
  data : List Row
  dataFileDate : Nat
  fs : PartFs
deriving DecidableEq

/-- `_ensure_data_file` from `awc.py`: create the file empty when absent
(`touch`); the `strptime` validation and the directory creation have no
observable effect on valid generated date keys. -/
def ensure_data_file (fs : PartFs) (date : Nat) : PartFs :=
  if (dictGet? fs date).isSome then fs else dictSet fs date []

/-- One iteration of the `_deduplicate_data` loop: skip the row when its
`rawmetar` is already a key of the dict, else append it. -/
def dedupStep (dedup : List Row) (row : Row) : List Row :=
  if dedup.any (fun r => r.rawmetar = row.rawmetar) then dedup
  else dedup ++ [row]

/-- `_deduplicate_data` from `awc.py`: a Python dict keyed by `rawmetar`
whose guard keeps the first write, read back with `list(dedup.values())`
in key-insertion order. -/
def deduplicate_data (data : List Row) : List Row :=
  data.foldl dedupStep []

/-- Append a row to its group inside the `data_by_date` dict-of-lists. -/
def insertGroup : List (Nat × List Row) → Nat → Row → List (Nat × List Row)
  | [], d, row => [(d, [row])]
  | (k, v) :: rest, d, row =>
    if k = d then (k, v ++ [row]) :: rest else (k, v) :: insertGroup rest d row

/-- The `data_by_date` grouping loop of `_dump_data`: keys appear in order
of first occurrence, each group keeps the original row order. -/
def groupByDate (data : List Row) : List (Nat × List Row) :=
  data.foldl (fun acc row => insertGroup acc (dateKey row.timestamp) row) []

/-- `_dump_data` from `awc.py`. Python's `sorted` is modelled by
`insertionSort`, extensionally equal to any correct sort on `Nat` keys;
`_dump_data_in_file` is a full overwrite of one partition, i.e. `dictSet`;
`_load_data_from_file` on the just-ensured previous partition is
`dictGet?` with the `[]` default for the freshly touched file. -/
def dump_data (s : StoreState) : StoreState :=
  let data := deduplicate_data s.data
  let data_by_date := groupByDate data
  if 1 < (dictKeys data_by_date).length then
    let dates := List.insertionSort (· ≤ ·) (dictKeys data_by_date)
    let previous_date := dates.headI
    let fs1 := ensure_data_file s.fs previous_date
    let previous_data := (dictGet? fs1 previous_date).getD []
    let previous_data2 :=
      deduplicate_data (previous_data ++ (dictGet? data_by_date previous_date).getD [])
    let fs2 := dictSet fs1 previous_date previous_data2
    let next_date := dates.getLastI
    let fs3 := ensure_data_file fs2 next_date
    let data2 := (dictGet? data_by_date next_date).getD []
    { data := data2, dataFileDate := next_date, fs := dictSet fs3 next_date data2 }
  else
    { data := data
      dataFileDate := s.dataFileDate
      fs := dictSet s.fs s.dataFileDate data }

/-- The deduplicated working set a flush starts from (step 1 of
`_dump_data`). -/
def flushWorking (s : StoreState) : List Row :=
  deduplicate_data s.data

/-- The `dates = sorted(data_by_date.keys())` list of `_dump_data`. -/
def flushDates (s : StoreState) : List Nat :=
  List.insertionSort (· ≤ ·) (dictKeys (groupByDate (flushWorking s)))

/-- `dates[0]` in `_dump_data`: the earliest date key of the batch. -/
def flushPrevDate (s : StoreState) : Nat :=
  (flushDates s).headI

/-- `dates[-1]` in `_dump_data`: the latest date key of the batch. -/
def flushNextDate (s : StoreState) : Nat :=
  (flushDates s).getLastI

/-- No two rows of a partition share a `rawmetar`, and every row's
timestamp falls on the day the file's date key names. -/
def partitionOk (d : Nat) (rows : List Row) : Prop :=
  List.Pairwise (fun a b => a.rawmetar ≠ b.rawmetar) rows ∧
    ∀ r ∈ rows, dateKey r.timestamp = d

instance (d : Nat) (rows : List Row) : Decidable (partitionOk d rows) := by
  unfold partitionOk
  infer_instance

/-- Every on-disk partition file satisfies `partitionOk`. -/
def fsOk (fs : PartFs) : Prop :=
  ∀ kv ∈ fs, partitionOk kv.1 kv.2

instance (fs : PartFs) : Decidable (fsOk fs) := by
  unfold fsOk
  infer_instance

/-- The deduplication half of the invariant alone: no partition file holds
two records with equal `rawmetar`. -/
def fsDedupOk (fs : PartFs) : Prop :=
  ∀ kv ∈ fs, List.Pairwise (fun a b => a.rawmetar ≠ b.rawmetar) kv.2

instance (fs : PartFs) : Decidable (fsDedupOk fs) := by
  unfold fsDedupOk
  infer_instance

/-- Records of three consecutive days with distinct raw reports, and the
fixture states the store claims are checked on. -/
def rowA : Row := ⟨0, "METAR A", "pa"⟩

def rowB : Row := ⟨86400, "METAR B", "pb"⟩

def rowC : Row := ⟨172800, "METAR C", "pc"⟩

/-- A store that started on day 2 whose batch spans days 0, 1 and 2. -/
def threeDayState : StoreState := ⟨[rowA, rowB, rowC], 2, [(2, [])]⟩

/-- A store that started on day 1 whose whole batch is timestamped day 0
(a fetch just after midnight whose lookback only caught yesterday). -/
def laggedState : StoreState := ⟨[rowA], 1, [(1, [])]⟩

/-- A store on day 2 holding one day-2 record: the aligned single-day
case. -/
def alignedState : StoreState := ⟨[rowC], 2, [(2, [])]⟩

def row7 : Row := ⟨604800, "METAR D7", "p7"⟩

def row8 : Row := ⟨691200, "METAR D8", "p8"⟩

/-- The spec's cross-midnight scenario: an empty store for day 7 after
appending one record of day 7 and one of day 8. -/
def midnightState : StoreState := ⟨[row7, row8], 7, [(7, [])]⟩

def dupRow1 : Row := ⟨1000, "METAR X", "first"⟩

def dupRow2 : Row := ⟨5000, "METAR X", "second"⟩

/-- A store whose batch holds two same-day records with equal `rawmetar`. -/
def dupState : StoreState := ⟨[dupRow1, dupRow2], 0, []⟩

/-- The optional typed fields the external METAR decoder exposes for one
report (`Metar.Metar(raw)` in `awc.py`); the numeric values the `.value()`
accessors would return are carried as exact rationals, since the decoder
itself is an opaque external collaborator. -/
structure MetarDecoded where
  station_id : String
  time : Option ℚ
  temp : Option ℚ
  dewpt : Option ℚ
  press : Option ℚ
  press_sea_level : Option ℚ
  wind_dir : Option ℚ
  wind_speed : Option ℚ
  wind_gust : Option ℚ
deriving DecidableEq

/-- A value of the observation row dict: Python stores either a number or
the literal empty string `""` for the two optional fields. -/
inductive CsvVal
  | num (v : ℚ)
  | emptyStr
deriving DecidableEq

/-- The observation row `_fetch_data_from_raw_metar` builds, with the fixed
`FIELDS` order of `awc.py` as declaration order. -/
structure ObsRecord where
  timestamp : ℚ
  name : String
  code : String
  lng : ℚ
  lat : ℚ
  ele : String
  temperature_c : ℚ
  dewpoint_c : ℚ
  relativehumidity : ℝ
  pressure_mb : ℚ
  pressuresea_mb : CsvVal
  winddirection_deg : ℚ
  windspeed_kt : ℚ
  windgust_kt : CsvVal
  rawmetar : String

/-- `_metar_valid` from `awc.py`: all six required fields are present. -/
def metar_valid (metar : MetarDecoded) : Bool :=
  metar.time.isSome && metar.temp.isSome && metar.dewpt.isSome &&
    metar.press.isSome && metar.wind_dir.isSome && metar.wind_speed.isSome

/-- The Python exceptions the pipeline can raise and does not catch. -/
inductive PyErr
  | keyError (key : String)
deriving DecidableEq

/-- `_fetch_data_from_raw_metar` from `awc.py`: resolve the station from the
registry (`self.stations[metar_decoded.station_id]`, whose `KeyError` is the
`.error` case), return `none` when the validity gate rejects the report, and
otherwise build the observation row. The `.getD 0` reads stand for the
`.value()` calls, which the validity gate guarantees act on present fields. -/
noncomputable def fetch_data_from_raw_metar (stations : List (String × Station))
    (metar_raw : String) (metar_decoded : MetarDecoded) :
    Except PyErr (Option ObsRecord) :=
  match dictGet? stations metar_decoded.station_id with
  | none => .error (.keyError metar_decoded.station_id)
  | some station =>
    if metar_valid metar_decoded then
      let temperature_c := metar_decoded.temp.getD 0
      let dewpoint_c := metar_decoded.dewpt.getD 0
      .ok (some
        { timestamp := metar_decoded.time.getD 0
          name := station.name
          code := station.code4
          lng := station.longitude
          lat := station.latitude
          ele := station.elevation
          temperature_c := temperature_c
          dewpoint_c := dewpoint_c
          relativehumidity :=
            relative_humidity_from_dewpoint (temperature_c : ℝ) (dewpoint_c : ℝ)
          pressure_mb := metar_decoded.press.getD 0
          pressuresea_mb :=
            match metar_decoded.press_sea_level with
            | some v => .num v
            | none => .emptyStr
          winddirection_deg := metar_decoded.wind_dir.getD 0
          windspeed_kt := metar_decoded.wind_speed.getD 0
          windgust_kt :=
            match metar_decoded.wind_gust with
            | some v => .num v
            | none => .emptyStr
          rawmetar := metar_raw })
    else .ok none

/-- Demo fixtures for the pipeline claims: a one-station registry and
decoded reports exercising the lookup and the validity gate. -/
def demoStation : Station :=
  ⟨"NY", "NEW YORK/JFK", "KJFK", -(2213 / 30 : ℚ), 1219 / 30, "13", "raw"⟩

def demoRegistry : List (String × Station) := [("KJFK", demoStation)]

/-- A decoded report with a known station, missing only wind speed. -/
def demoNoWindSpeed : MetarDecoded :=
  ⟨"KJFK", some 1700000000, some 20, some 15, some 1013, some 1014, some 180,
    none, some 25⟩

/-- A decoded report whose station code is absent from the registry, with
every field present. -/
def demoUnknownStation : MetarDecoded :=
  ⟨"KABC", some 1700000000, some 21, some 11, some 1008, some 1009, some 90,
    some 12, some 18⟩

/-- A decoded report with an unknown station code that is also missing the
required wind speed. -/
def demoUnknownNoWind : MetarDecoded :=
  ⟨"KNOP", some 1700000000, some 22, some 12, some 1011, none, some 270,
    none, none⟩

/-- The registry demo file: one header line, one comment line, one blank
line, one valid 84-character station row. -/
def demoHeaderLine : String := "NEW YORK STATIONS"

def demoCommentLine : String := "!   CD = 2 letter state (province) abbreviation"

def demoBlankLine : String := "   "

def demoLine : String :=
  "NY " ++ "NEW YORK/JFK    " ++ " " ++ "KJFK" ++ "               " ++
    "040 38N" ++ " " ++ "073 46W" ++ " " ++ "  13" ++
    "                         "

/-- The station the demo row parses to. -/
def demoParsedStation : Station :=
  ⟨"NY", "NEW YORK/JFK", "KJFK", -(2213 / 30 : ℚ), 1219 / 30, "13", demoLine⟩

theorem toList_asString (l : List Char) : (List.asString l).toList = l := rfl

theorem pysplitGo_nil_of_ne (acc : List Char) (h : acc ≠ []) :
    pysplitGo [] acc = [acc.reverse] := by
  simp [pysplitGo, h]

theorem pysplitGo_append_nospace (xs l acc : List Char)
    (h : ∀ c ∈ xs, pyIsSpace c = false) :
    pysplitGo (xs ++ l) acc = pysplitGo l (xs.reverse ++ acc) := by
  induction xs generalizing acc with
  | nil => simp
  | cons c cs ih =>
    have hc : pyIsSpace c = false := h c (by simp)
    simp only [List.cons_append, pysplitGo, hc, Bool.false_eq_true, if_false,
      List.append_eq]
    rw [ih _ (fun d hd => h d (by simp [hd]))]
    simp

theorem pysplitGo_space (c : Char) (hc : pyIsSpace c = true) (l acc : List Char)
    (h : acc ≠ []) :
    pysplitGo (c :: l) acc = acc.reverse :: pysplitGo l [] := by
  simp only [pysplitGo, hc, if_true, if_neg h]

theorem pysplit_two (ds ms : List Char)
    (hds : ∀ c ∈ ds, pyIsSpace c = false) (hds0 : ds ≠ [])
    (hms : ∀ c ∈ ms, pyIsSpace c = false) (hms0 : ms ≠ []) :
    pysplit (ds ++ ' ' :: ms).asString = [ds.asString, ms.asString] := by
  unfold pysplit
  rw [toList_asString, pysplitGo_append_nospace ds _ [] hds]
  rw [List.append_nil]
  rw [pysplitGo_space ' ' (by decide) ms _ (by simp [hds0])]
  have h2 : pysplitGo ms [] = [ms] := by
    have h3 := pysplitGo_append_nospace ms [] [] hms
    simp only [List.append_nil] at h3
    rw [h3, pysplitGo_nil_of_ne _ (by simp [hms0])]
    simp
  rw [h2]
  simp

theorem dropWhile_eq_self_nospace (p : Char → Bool) (l : List Char)
    (h : ∀ c ∈ l, p c = false) :
    l.dropWhile p = l := by
  cases l with
  | nil => rfl
  | cons c cs => simp [List.dropWhile_cons, h c (by simp)]

theorem pystripChars_nospace (l : List Char) (h : ∀ c ∈ l, pyIsSpace c = false) :
    pystripChars l = l := by
  unfold pystripChars
  rw [dropWhile_eq_self_nospace _ l h,
    dropWhile_eq_self_nospace _ _ (fun c hc => h c (by simpa using hc))]
  simp

theorem pyIsSpace_eq_false_of_isDigit (c : Char) (h : c.isDigit = true) :
    pyIsSpace c = false := by
  rcases Bool.eq_false_or_eq_true (pyIsSpace c) with ht | hf
  · exfalso
    unfold pyIsSpace at ht
    simp only [Bool.or_eq_true, decide_eq_true_eq] at ht
    rcases ht with ((((h1 | h2) | h3) | h4) | h5) | h6 <;>
      subst_vars <;> exact absurd h (by decide)
  · exact hf

theorem pyint?_digits (l : List Char) (h0 : l ≠ []) (h : l.all Char.isDigit = true) :
    pyint? l.asString = some (digitsVal l : Int) := by
  have hns : ∀ c ∈ l, pyIsSpace c = false := fun c hc =>
    pyIsSpace_eq_false_of_isDigit c (by
      have := List.all_eq_true.mp h c hc
      simpa using this)
  unfold pyint?
  rw [toList_asString, pystripChars_nospace l hns]
  cases l with
  | nil => exact absurd rfl h0
  | cons c cs =>
    have hc : c.isDigit = true := by
      have := List.all_eq_true.mp h c (by simp)
      simpa using this
    have h1 : ¬(c = '-') := fun e => by subst e; exact absurd hc (by decide)
    have h2 : ¬(c = '+') := fun e => by subst e; exact absurd hc (by decide)
    simp only [if_neg h1, if_neg h2, h, if_true]

theorem pydropLast_concat (l : List Char) (c : Char) :
    pydropLast (l ++ [c]).asString = l.asString := by
  unfold pydropLast
  rw [toList_asString, List.dropLast_concat]

theorem pylast?_concat (l : List Char) (c : Char) :
    pylast? (l ++ [c]).asString = some c := by
  unfold pylast?
  rw [toList_asString]
  exact List.getLast?_concat _

theorem latParse_digits (ds ms : List Char) (hem : Char)
    (hds0 : ds ≠ []) (hds : ds.all Char.isDigit = true)
    (hms0 : ms ≠ []) (hms : ms.all Char.isDigit = true)
    (hhem : pyIsSpace hem = false) :
    latParse (ds ++ ' ' :: (ms ++ [hem])).asString =
      some (if hem = 'S'
        then -((digitsVal ds : ℚ) + (digitsVal ms : ℚ) / 60)
        else (digitsVal ds : ℚ) + (digitsVal ms : ℚ) / 60) := by
  have hdig : ∀ l : List Char, l.all Char.isDigit = true → ∀ c ∈ l, pyIsSpace c = false :=
    fun l hl c hc => pyIsSpace_eq_false_of_isDigit c (by
      have := List.all_eq_true.mp hl c hc
      simpa using this)
  have hsplit := pysplit_two ds (ms ++ [hem]) (hdig ds hds) hds0
    (by
      intro c hc
      rcases List.mem_append.mp hc with h | h
      · exact hdig ms hms c h
      · simp only [List.mem_singleton] at h; subst h; exact hhem)
    (by simp)
  have hshape : (ds ++ ' ' :: (ms ++ [hem])) = (ds ++ ' ' :: ms) ++ [hem] := by
    simp
  unfold latParse
  rw [hsplit]
  simp only [pyint?_digits ds hds0 hds, pydropLast_concat,
    pyint?_digits ms hms0 hms, hshape, pylast?_concat, Option.bind_eq_bind,
    Option.some_bind]
  push_cast
  rfl

theorem lngParse_digits (ds ms : List Char) (hem : Char)
    (hds0 : ds ≠ []) (hds : ds.all Char.isDigit = true)
    (hms0 : ms ≠ []) (hms : ms.all Char.isDigit = true)
    (hhem : pyIsSpace hem = false) :
    lngParse (ds ++ ' ' :: (ms ++ [hem])).asString =
      some (if hem = 'W'
        then -((digitsVal ds : ℚ) + (digitsVal ms : ℚ) / 60)
        else (digitsVal ds : ℚ) + (digitsVal ms : ℚ) / 60) := by
  have hdig : ∀ l : List Char, l.all Char.isDigit = true → ∀ c ∈ l, pyIsSpace c = false :=
    fun l hl c hc => pyIsSpace_eq_false_of_isDigit c (by
      have := List.all_eq_true.mp hl c hc
      simpa using this)
  have hsplit := pysplit_two ds (ms ++ [hem]) (hdig ds hds) hds0
    (by
      intro c hc
      rcases List.mem_append.mp hc with h | h
      · exact hdig ms hms c h
      · simp only [List.mem_singleton] at h; subst h; exact hhem)
    (by simp)
  have hshape : (ds ++ ' ' :: (ms ++ [hem])) = (ds ++ ' ' :: ms) ++ [hem] := by
    simp
  unfold lngParse
  rw [hsplit]
  simp only [pyint?_digits ds hds0 hds, pydropLast_concat,
    pyint?_digits ms hms0 hms, hshape, pylast?_concat, Option.bind_eq_bind,
    Option.some_bind]
  push_cast
  rfl

example : latParse "40 26N" = some (1213 / 30 : ℚ) := by
  have h := latParse_digits ['4', '0'] ['2', '6'] 'N' (by decide) (by decide)
    (by decide) (by decide) (by decide)
  rw [show "40 26N" = (['4', '0'] ++ ' ' :: (['2', '6'] ++ ['N'])).asString from rfl, h]
  norm_num [show digitsVal ['4', '0'] = 40 from by decide,
    show digitsVal ['2', '6'] = 26 from by decide]
  decide

example : lngParse "73 59W" = some (-(4439 / 60) : ℚ) := by
  have h := lngParse_digits ['7', '3'] ['5', '9'] 'W' (by decide) (by decide)
    (by decide) (by decide) (by decide)
  rw [show "73 59W" = (['7', '3'] ++ ' ' :: (['5', '9'] ++ ['W'])).asString from rfl, h]
  norm_num [show digitsVal ['7', '3'] = 73 from by decide,
    show digitsVal ['5', '9'] = 59 from by decide]

theorem dictKeys_dictSet {α β : Type} [DecidableEq α]
    (m : List (α × β)) (k0 : α) (v : β) (k : α) :
    k ∈ dictKeys (dictSet m k0 v) ↔ k = k0 ∨ k ∈ dictKeys m := by
  induction m with
  | nil => simp [dictSet, dictKeys]
  | cons p t ih =>
    rcases p with ⟨a, b⟩
    rw [dictSet]
    by_cases ha : a = k0
    · rw [if_pos ha]
      subst ha
      simp only [dictKeys, List.map_cons, List.mem_cons]
      tauto
    · rw [if_neg ha]
      simp only [dictKeys, List.map_cons, List.mem_cons] at ih ⊢
      rw [ih]
      tauto

theorem fetch_stations_keys_aux (lines : List String) :
    ∀ (acc reg : List (String × Station)),
      List.foldlM fetchStationsStep acc lines = some reg →
      ∀ k, k ∈ dictKeys reg ↔
        (k ∈ dictKeys acc ∨
          ∃ line ∈ lines, stationRow line = true ∧ pyslice line 20 24 = k) := by
  induction lines with
  | nil =>
    intro acc reg h k
    rw [List.foldlM_nil] at h
    cases Option.some.inj h
    simp
  | cons line ls ih =>
    intro acc reg h k
    rw [List.foldlM_cons] at h
    by_cases h1 : pystrip line = ""
    · rw [fetchStationsStep, if_pos h1] at h
      rw [ih acc reg h k]
      simp [stationRow, h1]
    · by_cases h2 : pystartsWith line "!" = true
      · rw [fetchStationsStep, if_neg h1, if_pos h2] at h
        rw [ih acc reg h k]
        simp [stationRow, h2]
      · by_cases h3 : line.length = 84
        · rw [fetchStationsStep, if_neg h1, if_neg h2, if_neg (by simp [h3])] at h
          cases hps : parseStation line with
          | none => rw [hps] at h; simp at h
          | some st =>
            rw [hps] at h
            rw [ih _ reg h k, dictKeys_dictSet]
            have hrow : stationRow line = true := by
              simp [stationRow, h1, h2, h3]
            constructor
            · rintro ((rfl | hacc) | hls)
              · exact Or.inr ⟨line, by simp, hrow, rfl⟩
              · exact Or.inl hacc
              · rcases hls with ⟨l, hl, hPl⟩
                exact Or.inr ⟨l, by simp [hl], hPl⟩
            · rintro (hacc | ⟨l, hl, hPl, hk⟩)
              · exact Or.inl (Or.inr hacc)
              · rcases List.mem_cons.mp hl with rfl | hl2
                · exact Or.inl (Or.inl hk.symm)
                · exact Or.inr ⟨l, hl2, hPl, hk⟩
        · rw [fetchStationsStep, if_neg h1, if_neg h2, if_pos (by simp [h3])] at h
          rw [ih acc reg h k]
          simp [stationRow, h3]

theorem saturation_vapor_pressure_pos (t : ℝ) : 0 < saturation_vapor_pressure t :=
  mul_pos (by norm_num) (Real.exp_pos _)

theorem dictGet?_nil {α β : Type} [DecidableEq α] (k : α) :
    dictGet? ([] : List (α × β)) k = none := rfl

theorem dictGet?_cons {α β : Type} [DecidableEq α] (a : α) (b : β)
    (t : List (α × β)) (k : α) :
    dictGet? ((a, b) :: t) k = if a = k then some b else dictGet? t k := by
  unfold dictGet?
  by_cases h : a = k
  · rw [List.find?_cons_of_pos _ (by simpa using h), if_pos h]
    rfl
  · rw [List.find?_cons_of_neg _ (by simpa using h), if_neg h]

theorem dictGet?_dictSet_self {α β : Type} [DecidableEq α]
    (m : List (α × β)) (k : α) (v : β) :
    dictGet? (dictSet m k v) k = some v := by
  induction m with
  | nil => simp [dictSet, dictGet?_cons]
  | cons p t ih =>
    rcases p with ⟨a, b⟩
    rw [dictSet]
    by_cases ha : a = k
    · rw [if_pos ha, dictGet?_cons, if_pos rfl]
    · rw [if_neg ha, dictGet?_cons, if_neg ha]
      exact ih

theorem dictGet?_dictSet_ne {α β : Type} [DecidableEq α]
    (m : List (α × β)) (k : α) (v : β) (k' : α) (h : k ≠ k') :
    dictGet? (dictSet m k v) k' = dictGet? m k' := by
  induction m with
  | nil => simp [dictSet, dictGet?_cons, dictGet?_nil, h]
  | cons p t ih =>
    rcases p with ⟨a, b⟩
    rw [dictSet]
    by_cases ha : a = k
    · subst ha
      rw [if_pos rfl, dictGet?_cons, dictGet?_cons, if_neg h, if_neg h]
    · rw [if_neg ha, dictGet?_cons, dictGet?_cons, ih]

theorem mem_dictSet {α β : Type} [DecidableEq α]
    (m : List (α × β)) (k : α) (v : β) (p : α × β)
    (h : p ∈ dictSet m k v) : p = (k, v) ∨ p ∈ m := by
  induction m with
  | nil => simpa [dictSet] using h
  | cons q t ih =>
    rcases q with ⟨a, b⟩
    rw [dictSet] at h
    by_cases ha : a = k
    · rw [if_pos ha] at h
      rcases List.mem_cons.mp h with rfl | h2
      · exact Or.inl rfl
      · exact Or.inr (List.mem_cons_of_mem _ h2)
    · rw [if_neg ha] at h
      rcases List.mem_cons.mp h with rfl | h2
      · exact Or.inr (List.mem_cons_self _ _)
      · rcases ih h2 with h3 | h3
        · exact Or.inl h3
        · exact Or.inr (List.mem_cons_of_mem _ h3)

theorem dictSet_dictSet_self {α β : Type} [DecidableEq α]
    (m : List (α × β)) (k : α) (v : β) :
    dictSet (dictSet m k v) k v = dictSet m k v := by
  induction m with
  | nil => simp [dictSet]
  | cons q t ih =>
    rcases q with ⟨a, b⟩
    by_cases ha : a = k
    · simp [dictSet, ha]
    · simp [dictSet, ha, ih]

theorem dictGet?_eq_none_iff {α β : Type} [DecidableEq α]
    (m : List (α × β)) (k : α) :
    dictGet? m k = none ↔ k ∉ dictKeys m := by
  unfold dictGet? dictKeys
  rw [Option.map_eq_none', List.find?_eq_none]
  simp only [decide_eq_true_eq, List.mem_map]
  constructor
  · rintro h ⟨p, hp, rfl⟩
    exact h p hp rfl
  · rintro h p hp rfl
    exact h ⟨p, hp, rfl⟩

theorem dictGet?_ensure_self (fs : PartFs) (d : Nat) :
    dictGet? (ensure_data_file fs d) d = some ((dictGet? fs d).getD []) := by
  unfold ensure_data_file
  cases h : dictGet? fs d with
  | some rows => rw [if_pos (by simp [h]), h]; rfl
  | none => rw [if_neg (by simp [h]), dictGet?_dictSet_self]; rfl

theorem dictGet?_ensure_ne (fs : PartFs) (d k : Nat) (h : d ≠ k) :
    dictGet? (ensure_data_file fs d) k = dictGet? fs k := by
  unfold ensure_data_file
  split
  · rfl
  · exact dictGet?_dictSet_ne fs d [] k h

theorem fsOk_dictSet (fs : PartFs) (d : Nat) (v : List Row)
    (hfs : fsOk fs) (hv : partitionOk d v) : fsOk (dictSet fs d v) := by
  intro kv hkv
  rcases mem_dictSet fs d v kv hkv with rfl | h
  · exact hv
  · exact hfs kv h

theorem fsOk_ensure (fs : PartFs) (d : Nat) (hfs : fsOk fs) :
    fsOk (ensure_data_file fs d) := by
  unfold ensure_data_file
  split
  · exact hfs
  · exact fsOk_dictSet fs d [] hfs ⟨List.Pairwise.nil, by simp⟩

theorem fsDedupOk_dictSet (fs : PartFs) (d : Nat) (v : List Row)
    (hfs : fsDedupOk fs)
    (hv : List.Pairwise (fun a b => a.rawmetar ≠ b.rawmetar) v) :
    fsDedupOk (dictSet fs d v) := by
  intro kv hkv
  rcases mem_dictSet fs d v kv hkv with rfl | h
  · exact hv
  · exact hfs kv h

theorem fsDedupOk_ensure (fs : PartFs) (d : Nat) (hfs : fsDedupOk fs) :
    fsDedupOk (ensure_data_file fs d) := by
  unfold ensure_data_file
  split
  · exact hfs
  · exact fsDedupOk_dictSet fs d [] hfs List.Pairwise.nil

theorem fsOk_get (fs : PartFs) (d : Nat) (rows : List Row) (hfs : fsOk fs)
    (h : dictGet? fs d = some rows) : partitionOk d rows := by
  unfold dictGet? at h
  rcases Option.map_eq_some'.mp h with ⟨p, hp, hsnd⟩
  have hmem := List.mem_of_find?_eq_some hp
  have hkey : p.1 = d := by simpa using List.find?_some hp
  have hok := hfs p hmem
  rw [hkey, hsnd] at hok
  exact hok

theorem mem_foldl_dedupStep (l : List Row) :
    ∀ (acc : List Row) (r : Row), r ∈ l.foldl dedupStep acc → r ∈ acc ∨ r ∈ l := by
  induction l with
  | nil =>
    intro acc r h
    rw [List.foldl_nil] at h
    exact Or.inl h
  | cons row rest ih =>
    intro acc r h
    rw [List.foldl_cons] at h
    by_cases hg : acc.any (fun x => x.rawmetar = row.rawmetar) = true
    · rw [dedupStep, if_pos hg] at h
      rcases ih acc r h with h2 | h2
      · exact Or.inl h2
      · exact Or.inr (List.mem_cons_of_mem _ h2)
    · rw [dedupStep, if_neg hg] at h
      rcases ih _ r h with h2 | h2
      · rcases List.mem_append.mp h2 with h3 | h3
        · exact Or.inl h3
        · simp only [List.mem_singleton] at h3
          subst h3
          exact Or.inr (List.mem_cons_self _ _)
      · exact Or.inr (List.mem_cons_of_mem _ h2)

theorem mem_deduplicate_data (l : List Row) (r : Row)
    (h : r ∈ deduplicate_data l) : r ∈ l := by
  rcases mem_foldl_dedupStep l [] r h with h2 | h2
  · exact absurd h2 (List.not_mem_nil r)
  · exact h2

theorem pairwise_foldl_dedupStep (l : List Row) :
    ∀ acc : List Row,
      List.Pairwise (fun a b => a.rawmetar ≠ b.rawmetar) acc →
      List.Pairwise (fun a b => a.rawmetar ≠ b.rawmetar) (l.foldl dedupStep acc) := by
  induction l with
  | nil => intro acc h; exact h
  | cons row rest ih =>
    intro acc h
    rw [List.foldl_cons]
    by_cases hg : acc.any (fun x => x.rawmetar = row.rawmetar) = true
    · rw [dedupStep, if_pos hg]
      exact ih acc h
    · rw [dedupStep, if_neg hg]
      apply ih
      rw [List.pairwise_append]
      refine ⟨h, List.pairwise_singleton _ _, ?_⟩
      intro a ha b hb
      simp only [List.mem_singleton] at hb
      subst hb
      intro he
      exact hg (List.any_eq_true.mpr ⟨a, ha, by simp [he]⟩)

theorem pairwise_deduplicate_data (l : List Row) :
    List.Pairwise (fun a b => a.rawmetar ≠ b.rawmetar) (deduplicate_data l) :=
  pairwise_foldl_dedupStep l [] List.Pairwise.nil

theorem foldl_dedupStep_of_pairwise (l : List Row) :
    ∀ acc, List.Pairwise (fun a b => a.rawmetar ≠ b.rawmetar) (acc ++ l) →
      l.foldl dedupStep acc = acc ++ l := by
  induction l with
  | nil => intro acc h; simp
  | cons row rest ih =>
    intro acc h
    rw [List.foldl_cons]
    have hg : acc.any (fun x => x.rawmetar = row.rawmetar) = false := by
      rw [List.any_eq_false]
      intro x hx
      have := (List.pairwise_append.mp h).2.2 x hx row (List.mem_cons_self _ _)
      simpa using this
    rw [dedupStep, hg]
    simp only [Bool.false_eq_true, if_false]
    rw [ih (acc ++ [row]) (by simpa using h)]
    simp

theorem deduplicate_data_of_pairwise (l : List Row)
    (h : List.Pairwise (fun a b => a.rawmetar ≠ b.rawmetar) l) :
    deduplicate_data l = l := by
  have h2 := foldl_dedupStep_of_pairwise l [] (by simpa using h)
  simpa using h2

theorem deduplicate_data_idem (l : List Row) :
    deduplicate_data (deduplicate_data l) = deduplicate_data l :=
  deduplicate_data_of_pairwise _ (pairwise_deduplicate_data l)

theorem filter_foldl_dedupStep (key : String) (l : List Row) :
    ∀ acc, (l.foldl dedupStep acc).filter (fun r => r.rawmetar = key) =
      if acc.any (fun r => r.rawmetar = key)
      then acc.filter (fun r => r.rawmetar = key)
      else (l.find? (fun r => r.rawmetar = key)).toList := by
  induction l with
  | nil =>
    intro acc
    rw [List.foldl_nil]
    by_cases ha : acc.any (fun r => r.rawmetar = key) = true
    · rw [if_pos ha]
    · rw [if_neg ha]
      rw [List.find?_nil, Option.toList_none]
      rw [List.filter_eq_nil_iff]
      intro a hmem
      intro hcontra
      exact ha (List.any_eq_true.mpr ⟨a, hmem, hcontra⟩)
  | cons row rest ih =>
    intro acc
    rw [List.foldl_cons]
    by_cases hk : row.rawmetar = key
    · have hpred : (fun r : Row => decide (r.rawmetar = row.rawmetar)) =
          (fun r : Row => decide (r.rawmetar = key)) := by
        funext r
        simp [hk]
      by_cases hg : acc.any (fun x => x.rawmetar = row.rawmetar) = true
      · have haK : acc.any (fun r => r.rawmetar = key) = true := by
          rw [← hpred]; exact hg
        rw [dedupStep, if_pos hg, ih acc, if_pos haK, if_pos haK]
      · have haK : acc.any (fun r => r.rawmetar = key) = false := by
          rw [← hpred]; exact Bool.eq_false_iff.mpr hg
        rw [dedupStep, if_neg hg, ih _]
        have haK2 : (acc ++ [row]).any (fun r => r.rawmetar = key) = true := by
          rw [List.any_eq_true]
          exact ⟨row, by simp, by simp [hk]⟩
        rw [if_pos haK2, if_neg (by simp [haK]),
          List.find?_cons_of_pos _ (by simp [hk]), Option.toList_some,
          List.filter_append]
        have hfacc : acc.filter (fun r => r.rawmetar = key) = [] := by
          rw [List.filter_eq_nil_iff]
          intro a hmem hcontra
          rw [List.any_eq_false] at haK
          exact haK a hmem hcontra
        rw [hfacc]
        simp [hk]
    · by_cases hg : acc.any (fun x => x.rawmetar = row.rawmetar) = true
      · rw [dedupStep, if_pos hg, ih acc,
          List.find?_cons_of_neg _ (by simp [hk])]
      · rw [dedupStep, if_neg hg, ih _,
          List.find?_cons_of_neg _ (by simp [hk])]
        have hany : (acc ++ [row]).any (fun r => r.rawmetar = key) =
            acc.any (fun r => r.rawmetar = key) := by
          rw [List.any_append]
          simp [hk]
        rw [hany]
        by_cases haK : acc.any (fun r => r.rawmetar = key) = true
        · rw [if_pos haK, if_pos haK, List.filter_append]
          simp [hk]
        · rw [if_neg haK, if_neg haK]

theorem filter_deduplicate_data (l : List Row) (key : String) :
    (deduplicate_data l).filter (fun r => r.rawmetar = key) =
      (l.find? (fun r => r.rawmetar = key)).toList := by
  have h := filter_foldl_dedupStep key l []
  simpa using h

theorem dictGet?_insertGroup (g : List (Nat × List Row)) (d : Nat) (row : Row)
    (k : Nat) :
    dictGet? (insertGroup g d row) k =
      if k = d then some ((dictGet? g d).getD [] ++ [row]) else dictGet? g k := by
  induction g with
  | nil =>
    by_cases h : k = d
    · subst h
      simp [insertGroup, dictGet?_cons, dictGet?_nil]
    · rw [insertGroup, dictGet?_cons, if_neg (fun e => h e.symm), if_neg h]
  | cons p t ih =>
    rcases p with ⟨k0, v⟩
    rw [insertGroup]
    by_cases h0 : k0 = d
    · subst h0
      rw [if_pos rfl]
      by_cases hk : k = k0
      · subst hk
        rw [dictGet?_cons, if_pos rfl, if_pos rfl, dictGet?_cons, if_pos rfl,
          Option.getD_some]
      · rw [dictGet?_cons, if_neg (fun e => hk e.symm), if_neg hk, dictGet?_cons,
          if_neg (fun e => hk e.symm)]
    · rw [if_neg h0]
      by_cases hk0 : k0 = k
      · subst hk0
        simp [dictGet?_cons, h0]
      · by_cases hkd : k = d
        · subst hkd
          simp [dictGet?_cons, h0, hk0, ih]
        · simp [dictGet?_cons, h0, hk0, hkd, ih]

theorem dictKeys_insertGroup (g : List (Nat × List Row)) (d : Nat) (row : Row) :
    dictKeys (insertGroup g d row) =
      if d ∈ dictKeys g then dictKeys g else dictKeys g ++ [d] := by
  induction g with
  | nil => simp [insertGroup, dictKeys]
  | cons p t ih =>
    rcases p with ⟨k0, v⟩
    rw [insertGroup]
    by_cases h0 : k0 = d
    · subst h0
      rw [if_pos rfl]
      simp [dictKeys]
    · rw [if_neg h0]
      simp only [dictKeys, List.map_cons] at ih ⊢
      rw [ih]
      by_cases hd : d ∈ List.map Prod.fst t
      · rw [if_pos hd, if_pos (List.mem_cons_of_mem _ hd)]
      · rw [if_neg hd, if_neg (by
          intro hmem
          rcases List.mem_cons.mp hmem with he | he
          · exact h0 he.symm
          · exact hd he)]
        rfl

theorem groupByDate_append_singleton (l : List Row) (r : Row) :
    groupByDate (l ++ [r]) = insertGroup (groupByDate l) (dateKey r.timestamp) r := by
  unfold groupByDate
  rw [List.foldl_append]
  rfl

theorem getD_groupByDate (l : List Row) (k : Nat) :
    (dictGet? (groupByDate l) k).getD [] =
      l.filter (fun r => dateKey r.timestamp = k) := by
  induction l using List.reverseRecOn with
  | nil => simp [groupByDate, dictGet?_nil]
  | append_singleton l r ih =>
    rw [groupByDate_append_singleton, dictGet?_insertGroup, List.filter_append]
    by_cases hk : k = dateKey r.timestamp
    · rw [if_pos hk, Option.getD_some, ← hk, ih]
      simp [hk]
    · rw [if_neg hk, ih]
      have : (List.filter (fun x => decide (dateKey x.timestamp = k)) [r]) = [] := by
        simp
        exact fun e => hk e.symm
      rw [this, List.append_nil]

theorem mem_dictKeys_groupByDate (l : List Row) :
    ∀ k, k ∈ dictKeys (groupByDate l) ↔ ∃ r ∈ l, dateKey r.timestamp = k := by
  induction l using List.reverseRecOn with
  | nil => simp [groupByDate, dictKeys]
  | append_singleton l r ih =>
    intro k
    rw [groupByDate_append_singleton, dictKeys_insertGroup]
    by_cases hd : dateKey r.timestamp ∈ dictKeys (groupByDate l)
    · rw [if_pos hd, ih]
      constructor
      · rintro ⟨x, hx, hxk⟩
        exact ⟨x, List.mem_append.mpr (Or.inl hx), hxk⟩
      · rintro ⟨x, hx, hxk⟩
        rcases List.mem_append.mp hx with h1 | h1
        · exact ⟨x, h1, hxk⟩
        · simp only [List.mem_singleton] at h1
          subst h1
          rcases (ih (dateKey x.timestamp)).mp hd with ⟨y, hy, hyk⟩
          exact ⟨y, hy, hyk.trans hxk⟩
    · rw [if_neg hd]
      rw [List.mem_append]
      constructor
      · rintro (h1 | h1)
        · rcases (ih k).mp h1 with ⟨x, hx, hxk⟩
          exact ⟨x, List.mem_append.mpr (Or.inl hx), hxk⟩
        · simp only [List.mem_singleton] at h1
          subst h1
          exact ⟨r, List.mem_append.mpr (Or.inr (List.mem_singleton_self r)), rfl⟩
      · rintro ⟨x, hx, hxk⟩
        rcases List.mem_append.mp hx with h1 | h1
        · exact Or.inl ((ih k).mpr ⟨x, h1, hxk⟩)
        · simp only [List.mem_singleton] at h1
          subst h1
          exact Or.inr (by simp [hxk])

theorem nodup_dictKeys_groupByDate (l : List Row) :
    (dictKeys (groupByDate l)).Nodup := by
  induction l using List.reverseRecOn with
  | nil => simp [groupByDate, dictKeys]
  | append_singleton l r ih =>
    rw [groupByDate_append_singleton, dictKeys_insertGroup]
    by_cases hd : dateKey r.timestamp ∈ dictKeys (groupByDate l)
    · rw [if_pos hd]
      exact ih
    · rw [if_neg hd]
      refine List.Nodup.append ih (List.nodup_singleton _) ?_
      intro x hx hx2
      simp only [List.mem_singleton] at hx2
      subst hx2
      exact hd hx

theorem dictGet?_groupByDate_of_mem (l : List Row) (k : Nat)
    (h : k ∈ dictKeys (groupByDate l)) :
    dictGet? (groupByDate l) k =
      some (l.filter (fun r => dateKey r.timestamp = k)) := by
  cases hg : dictGet? (groupByDate l) k with
  | none => exact absurd h ((dictGet?_eq_none_iff _ _).mp hg)
  | some rows =>
    have h2 := getD_groupByDate l k
    rw [hg, Option.getD_some] at h2
    rw [h2]

theorem sorted_headI_le (l : List Nat) (h : l.Sorted (· ≤ ·)) :
    ∀ x ∈ l, l.headI ≤ x := by
  cases l with
  | nil => intro x hx; exact absurd hx (List.not_mem_nil x)
  | cons a t =>
    intro x hx
    rcases List.mem_cons.mp hx with rfl | hx2
    · exact le_refl _
    · exact List.rel_of_sorted_cons h x hx2

theorem getLastI_cons_cons (a b : Nat) (t : List Nat) :
    (a :: b :: t).getLastI = (b :: t).getLastI := by
  rw [List.getLastI_eq_getLast?, List.getLastI_eq_getLast?, List.getLast?_cons_cons]

theorem getLastI_mem (l : List Nat) (h : l ≠ []) : l.getLastI ∈ l := by
  induction l with
  | nil => exact absurd rfl h
  | cons a t ih =>
    cases t with
    | nil => simp [List.getLastI]
    | cons b t2 =>
      rw [getLastI_cons_cons]
      exact List.mem_cons_of_mem a (ih (by simp))

theorem sorted_le_getLastI (l : List Nat) (h : l.Sorted (· ≤ ·)) :
    ∀ x ∈ l, x ≤ l.getLastI := by
  induction l with
  | nil => intro x hx; exact absurd hx (List.not_mem_nil x)
  | cons a t ih =>
    intro x hx
    cases t with
    | nil =>
      simp only [List.mem_singleton] at hx
      subst hx
      simp [List.getLastI]
    | cons b t2 =>
      rw [getLastI_cons_cons]
      rcases List.mem_cons.mp hx with rfl | hx2
      · exact le_trans
          (List.rel_of_sorted_cons h _ (getLastI_mem (b :: t2) (by simp)))
          (le_refl _)
      · exact ih (List.Sorted.of_cons h) x hx2

theorem dump_data_single (s : StoreState)
    (h : ¬ 1 < (dictKeys (groupByDate (flushWorking s))).length) :
    dump_data s =
      { data := flushWorking s
        dataFileDate := s.dataFileDate
        fs := dictSet s.fs s.dataFileDate (flushWorking s) } := by
  have h' : ¬ 1 < (dictKeys (groupByDate (deduplicate_data s.data))).length := h
  simp only [dump_data, flushWorking]
  rw [if_neg h']

theorem dump_data_multi (s : StoreState)
    (h : 1 < (dictKeys (groupByDate (flushWorking s))).length) :
    dump_data s =
      { data := (dictGet? (groupByDate (flushWorking s)) (flushNextDate s)).getD []
        dataFileDate := flushNextDate s
        fs := dictSet
          (ensure_data_file
            (dictSet (ensure_data_file s.fs (flushPrevDate s)) (flushPrevDate s)
              (deduplicate_data
                ((dictGet? (ensure_data_file s.fs (flushPrevDate s))
                    (flushPrevDate s)).getD [] ++
                  (dictGet? (groupByDate (flushWorking s))
                    (flushPrevDate s)).getD [])))
            (flushNextDate s))
          (flushNextDate s)
          ((dictGet? (groupByDate (flushWorking s)) (flushNextDate s)).getD []) } := by
  have h' : 1 < (dictKeys (groupByDate (deduplicate_data s.data))).length := h
  simp only [dump_data, flushWorking, flushNextDate, flushPrevDate, flushDates]
  rw [if_pos h']

theorem flushDates_facts (s : StoreState)
    (h : 1 < (dictKeys (groupByDate (flushWorking s))).length) :
    flushPrevDate s ∈ dictKeys (groupByDate (flushWorking s)) ∧
    flushNextDate s ∈ dictKeys (groupByDate (flushWorking s)) ∧
    flushPrevDate s ≠ flushNextDate s ∧
    (∀ k ∈ dictKeys (groupByDate (flushWorking s)),
      flushPrevDate s ≤ k ∧ k ≤ flushNextDate s) := by
  have hperm : List.Perm (flushDates s) (dictKeys (groupByDate (flushWorking s))) :=
    List.perm_insertionSort _ _
  have hsorted : (flushDates s).Sorted (· ≤ ·) := List.sorted_insertionSort _ _
  have hlen : 1 < (flushDates s).length := by
    rw [hperm.length_eq]
    exact h
  have hnodup : (flushDates s).Nodup :=
    hperm.nodup_iff.mpr (nodup_dictKeys_groupByDate _)
  have hne : flushDates s ≠ [] := by
    intro he
    rw [he] at hlen
    exact absurd hlen (by simp)
  have hheadmem : (flushDates s).headI ∈ flushDates s := by
    cases hd : flushDates s with
    | nil => exact absurd hd hne
    | cons a t => simp
  have hlastmem : (flushDates s).getLastI ∈ flushDates s := getLastI_mem _ hne
  have hprevmem : flushPrevDate s ∈ dictKeys (groupByDate (flushWorking s)) :=
    hperm.mem_iff.mp hheadmem
  have hnextmem : flushNextDate s ∈ dictKeys (groupByDate (flushWorking s)) :=
    hperm.mem_iff.mp hlastmem
  refine ⟨hprevmem, hnextmem, ?_, ?_⟩
  · cases hd : flushDates s with
    | nil => exact absurd hd hne
    | cons a t =>
      cases t with
      | nil =>
        rw [hd] at hlen
        exact absurd hlen (by simp)
      | cons b t2 =>
        have hglmem : (b :: t2).getLastI ∈ b :: t2 := getLastI_mem _ (by simp)
        have hanotin : a ∉ b :: t2 := by
          have := hnodup
          rw [hd] at this
          exact (List.nodup_cons.mp this).1
        unfold flushPrevDate flushNextDate
        rw [hd, getLastI_cons_cons]
        intro he
        rw [List.headI_cons] at he
        exact hanotin (he ▸ hglmem)
  · intro k hk
    have hkd : k ∈ flushDates s := hperm.mem_iff.mpr hk
    exact ⟨sorted_headI_le _ hsorted k hkd, sorted_le_getLastI _ hsorted k hkd⟩

theorem keys_groupByDate_le_one (l : List Row) (d : Nat)
    (h : ∀ r ∈ l, dateKey r.timestamp = d) :
    ¬ 1 < (dictKeys (groupByDate l)).length := by
  have hsub : dictKeys (groupByDate l) ⊆ [d] := by
    intro k hk
    rcases (mem_dictKeys_groupByDate l k).mp hk with ⟨r, hr, hrk⟩
    simp [← hrk, h r hr]
  have hnd := nodup_dictKeys_groupByDate l
  have hle := List.Subperm.length_le (List.Nodup.subperm hnd hsub)
  simp only [List.length_singleton] at hle
  omega

theorem dump_data_fixed (t : StoreState)
    (ha : List.Pairwise (fun a b => a.rawmetar ≠ b.rawmetar) t.data)
    (hb : ¬ 1 < (dictKeys (groupByDate t.data)).length)
    (hc : dictSet t.fs t.dataFileDate t.data = t.fs) :
    dump_data t = t := by
  have hdd : deduplicate_data t.data = t.data := deduplicate_data_of_pairwise _ ha
  have hb2 : ¬ 1 < (dictKeys (groupByDate (flushWorking t))).length := by
    unfold flushWorking
    rw [hdd]
    exact hb
  rw [dump_data_single t hb2]
  unfold flushWorking
  rw [hdd, hc]

/-- C1 counterexample: flushing a batch that spans three date keys leaves
no partition file at all for the middle day, and the middle day's record
is on no partition; the claim requires every non-latest date key to be
merged into its partition. -/
theorem dump_data_drops_middle_day :
    dictGet? (dump_data threeDayState).fs (dateKey rowB.timestamp) = none ∧
    ∀ kv ∈ (dump_data threeDayState).fs, rowB ∉ kv.2 := by
  decide

/-- C1 (amended): when the deduplicated working set spans more than one
date key, the flush merges the newly batched records of the **earliest**
date key only into that date's existing partition (loading it if present,
deduplicating by `rawmetar` again, overwriting the file); partitions of
all other dates are untouched, so records of intermediate date keys are
discarded; it then resets the active partition to the latest date key of
the batch, narrows the working set to that key's records, and writes that
set as a full overwrite of the new current partition. -/
theorem dump_data_drift (s : StoreState)
    (h : 1 < (dictKeys (groupByDate (flushWorking s))).length) :
    (dump_data s).dataFileDate = flushNextDate s ∧
    (dump_data s).data =
      (flushWorking s).filter (fun r => dateKey r.timestamp = flushNextDate s) ∧
    dictGet? (dump_data s).fs (flushPrevDate s) =
      some (deduplicate_data ((dictGet? s.fs (flushPrevDate s)).getD [] ++
        (flushWorking s).filter (fun r => dateKey r.timestamp = flushPrevDate s))) ∧
    dictGet? (dump_data s).fs (flushNextDate s) =
      some ((flushWorking s).filter
        (fun r => dateKey r.timestamp = flushNextDate s)) ∧
    (∀ d, d ≠ flushPrevDate s → d ≠ flushNextDate s →
      dictGet? (dump_data s).fs d = dictGet? s.fs d) ∧
    (∀ k ∈ dictKeys (groupByDate (flushWorking s)),
      flushPrevDate s ≤ k ∧ k ≤ flushNextDate s) := by
  obtain ⟨hpm, hnm, hpn, hbounds⟩ := flushDates_facts s h
  rw [dump_data_multi s h]
  dsimp only
  refine ⟨rfl, ?_, ?_, ?_, ?_, hbounds⟩
  · rw [getD_groupByDate]
  · rw [dictGet?_dictSet_ne _ _ _ _ (Ne.symm hpn),
      dictGet?_ensure_ne _ _ _ (Ne.symm hpn),
      dictGet?_dictSet_self,
      dictGet?_ensure_self, Option.getD_some, getD_groupByDate]
  · rw [dictGet?_dictSet_self, getD_groupByDate]
  · intro d hdp hdn
    rw [dictGet?_dictSet_ne _ _ _ _ (fun e => hdn e.symm),
      dictGet?_ensure_ne _ _ _ (fun e => hdn e.symm),
      dictGet?_dictSet_ne _ _ _ _ (fun e => hdp e.symm),
      dictGet?_ensure_ne _ _ _ (fun e => hdp e.symm)]

/-- C1 witness: the cross-midnight scenario, the amended drift behaviour
at the concrete two-day state. -/
theorem dump_data_drift_witness :
    (dump_data midnightState).dataFileDate = flushNextDate midnightState ∧
    (dump_data midnightState).data =
      (flushWorking midnightState).filter
        (fun r => dateKey r.timestamp = flushNextDate midnightState) ∧
    dictGet? (dump_data midnightState).fs (flushPrevDate midnightState) =
      some (deduplicate_data
        ((dictGet? midnightState.fs (flushPrevDate midnightState)).getD [] ++
          (flushWorking midnightState).filter
            (fun r => dateKey r.timestamp = flushPrevDate midnightState))) ∧
    dictGet? (dump_data midnightState).fs (flushNextDate midnightState) =
      some ((flushWorking midnightState).filter
        (fun r => dateKey r.timestamp = flushNextDate midnightState)) ∧
    (∀ d, d ≠ flushPrevDate midnightState → d ≠ flushNextDate midnightState →
      dictGet? (dump_data midnightState).fs d = dictGet? midnightState.fs d) ∧
    (∀ k ∈ dictKeys (groupByDate (flushWorking midnightState)),
      flushPrevDate midnightState ≤ k ∧ k ≤ flushNextDate midnightState) :=
  dump_data_drift midnightState (by decide)

/-- C2 counterexample: from a well-formed store, a flush whose single-day
batch is timestamped the previous day writes those rows into the active
(current-day) partition file, so a day-0 record lands in the day-1 file
and the claimed invariant fails at a successful flush completion. -/
theorem dump_data_breaks_date_alignment :
    fsOk laggedState.fs ∧ ¬ fsOk (dump_data laggedState).fs := by
  decide

/-- C2 (amended): at every successful flush completion, every partition
file the flush wrote contains no two records with equal `rawmetar`,
unconditionally — a file the flush did not write is returned unchanged, so
whenever every pre-existing partition was duplicate-free, every partition
still is, with no further proviso; and provided additionally the pre-flush
files satisfied the full invariant and, when the deduplicated batch spans
exactly one date key, that key is the store's active partition date (the
code writes a single-key batch to the active file unconditionally), every
record of every partition file also lies on the day of the file's date
key. -/
theorem dump_data_fsOk (s : StoreState) :
    (∀ (d : Nat) (rows : List Row),
      dictGet? (dump_data s).fs d = some rows →
      dictGet? s.fs d = some rows ∨
        List.Pairwise (fun a b => a.rawmetar ≠ b.rawmetar) rows) ∧
    (fsDedupOk s.fs → fsDedupOk (dump_data s).fs) ∧
    (fsOk s.fs →
      ((dictKeys (groupByDate (flushWorking s))).length = 1 →
        dictKeys (groupByDate (flushWorking s)) = [s.dataFileDate]) →
      fsOk (dump_data s).fs) := by
  refine ⟨?_, ?_, ?_⟩
  · by_cases hc : 1 < (dictKeys (groupByDate (flushWorking s))).length
    · obtain ⟨hpm, hnm, hpn, _⟩ := flushDates_facts s hc
      rw [dump_data_multi s hc]
      dsimp only
      intro d rows h
      by_cases hdn : d = flushNextDate s
      · subst hdn
        rw [dictGet?_dictSet_self] at h
        cases Option.some.inj h
        right
        rw [getD_groupByDate]
        exact List.Pairwise.sublist (List.filter_sublist _)
          (pairwise_deduplicate_data _)
      · by_cases hdp : d = flushPrevDate s
        · subst hdp
          rw [dictGet?_dictSet_ne _ _ _ _ (fun e => hdn e.symm),
            dictGet?_ensure_ne _ _ _ (fun e => hdn e.symm),
            dictGet?_dictSet_self] at h
          cases Option.some.inj h
          right
          exact pairwise_deduplicate_data _
        · rw [dictGet?_dictSet_ne _ _ _ _ (fun e => hdn e.symm),
            dictGet?_ensure_ne _ _ _ (fun e => hdn e.symm),
            dictGet?_dictSet_ne _ _ _ _ (fun e => hdp e.symm),
            dictGet?_ensure_ne _ _ _ (fun e => hdp e.symm)] at h
          exact Or.inl h
    · rw [dump_data_single s hc]
      dsimp only
      intro d rows h
      by_cases hd : d = s.dataFileDate
      · subst hd
        rw [dictGet?_dictSet_self] at h
        cases Option.some.inj h
        right
        exact pairwise_deduplicate_data _
      · rw [dictGet?_dictSet_ne _ _ _ _ (fun e => hd e.symm)] at h
        exact Or.inl h
  · intro hfs
    by_cases hc : 1 < (dictKeys (groupByDate (flushWorking s))).length
    · rw [dump_data_multi s hc]
      dsimp only
      apply fsDedupOk_dictSet
      · apply fsDedupOk_ensure
        apply fsDedupOk_dictSet
        · exact fsDedupOk_ensure _ _ hfs
        · exact pairwise_deduplicate_data _
      · rw [getD_groupByDate]
        exact List.Pairwise.sublist (List.filter_sublist _)
          (pairwise_deduplicate_data _)
    · rw [dump_data_single s hc]
      dsimp only
      exact fsDedupOk_dictSet _ _ _ hfs (pairwise_deduplicate_data _)
  · intro hfs halign
    by_cases hc : 1 < (dictKeys (groupByDate (flushWorking s))).length
    · rw [dump_data_multi s hc]
      dsimp only
      apply fsOk_dictSet
      · apply fsOk_ensure
        apply fsOk_dictSet
        · exact fsOk_ensure _ _ hfs
        · constructor
          · exact pairwise_deduplicate_data _
          · intro r hr
            have hr2 := mem_deduplicate_data _ _ hr
            rcases List.mem_append.mp hr2 with h1 | h1
            · rw [dictGet?_ensure_self, Option.getD_some] at h1
              cases hg : dictGet? s.fs (flushPrevDate s) with
              | none =>
                rw [hg] at h1
                exact absurd h1 (List.not_mem_nil r)
              | some rows =>
                rw [hg, Option.getD_some] at h1
                exact (fsOk_get s.fs _ rows hfs hg).2 r h1
            · rw [getD_groupByDate] at h1
              exact of_decide_eq_true (List.mem_filter.mp h1).2
      · constructor
        · rw [getD_groupByDate]
          exact List.Pairwise.sublist (List.filter_sublist _)
            (pairwise_deduplicate_data _)
        · intro r hr
          rw [getD_groupByDate] at hr
          exact of_decide_eq_true (List.mem_filter.mp hr).2
    · rw [dump_data_single s hc]
      dsimp only
      apply fsOk_dictSet _ _ _ hfs
      constructor
      · exact pairwise_deduplicate_data _
      · intro r hr
        have hk : dateKey r.timestamp ∈ dictKeys (groupByDate (flushWorking s)) :=
          (mem_dictKeys_groupByDate _ _).mpr ⟨r, hr, rfl⟩
        have hlen : (dictKeys (groupByDate (flushWorking s))).length ≤ 1 :=
          Nat.le_of_not_lt hc
        rcases Nat.le_one_iff_eq_zero_or_eq_one.mp hlen with h0 | h1
        · rw [List.length_eq_zero] at h0
          rw [h0] at hk
          exact absurd hk (List.not_mem_nil _)
        · rw [halign h1] at hk
          simpa using hk

/-- C2 witness: the unconditional dedup half at the misaligned lagged
store (where the date-alignment proviso fails), and the full preserved
invariant at a concrete aligned store. -/
theorem dump_data_fsOk_witness :
    fsDedupOk (dump_data laggedState).fs ∧ fsOk (dump_data alignedState).fs :=
  ⟨(dump_data_fsOk laggedState).2.1 (by decide),
    (dump_data_fsOk alignedState).2.2 (by decide) (by decide)⟩

/-- C3: deduplication keeps, for each `rawmetar` value, exactly the first
record encountered with that value (later duplicates are dropped), and a
flush whose batch spans at most one date key writes exactly that
deduplicated set to the active partition file — so of two appended records
with equal `rawmetar`, exactly the first survives on disk. -/
theorem dedup_first_seen_wins :
    (∀ (l : List Row) (key : String),
      (deduplicate_data l).filter (fun r => r.rawmetar = key) =
        (l.find? (fun r => r.rawmetar = key)).toList) ∧
    (∀ s : StoreState,
      ¬ 1 < (dictKeys (groupByDate (flushWorking s))).length →
      dictGet? (dump_data s).fs s.dataFileDate =
        some (deduplicate_data s.data)) := by
  constructor
  · exact filter_deduplicate_data
  · intro s h
    rw [dump_data_single s h]
    dsimp only
    rw [dictGet?_dictSet_self]
    rfl

/-- C3 witness: two same-day records with equal `rawmetar`; after the
flush the partition holds the deduplicated set, whose only record with
that `rawmetar` is the first one appended. -/
theorem dedup_first_seen_wins_witness :
    dictGet? (dump_data dupState).fs dupState.dataFileDate =
      some (deduplicate_data dupState.data) ∧
    (deduplicate_data dupState.data).filter
      (fun r => r.rawmetar = "METAR X") = [dupRow1] := by
  refine ⟨dedup_first_seen_wins.2 dupState (by decide), ?_⟩
  rw [dedup_first_seen_wins.1 dupState.data "METAR X"]
  decide

/-- C6: flushing a second time with no appends in between leaves the whole
store state — in particular every on-disk partition — exactly as after the
first flush. -/
theorem dump_data_idem (s : StoreState) :
    dump_data (dump_data s) = dump_data s := by
  by_cases hc : 1 < (dictKeys (groupByDate (flushWorking s))).length
  · apply dump_data_fixed
    · rw [dump_data_multi s hc]
      dsimp only
      rw [getD_groupByDate]
      exact List.Pairwise.sublist (List.filter_sublist _)
        (pairwise_deduplicate_data _)
    · rw [dump_data_multi s hc]
      dsimp only
      rw [getD_groupByDate]
      apply keys_groupByDate_le_one _ (flushNextDate s)
      intro r hr
      exact of_decide_eq_true (List.mem_filter.mp hr).2
    · rw [dump_data_multi s hc]
      dsimp only
      exact dictSet_dictSet_self _ _ _
  · apply dump_data_fixed
    · rw [dump_data_single s hc]
      dsimp only
      exact pairwise_deduplicate_data _
    · rw [dump_data_single s hc]
      dsimp only
      exact hc
    · rw [dump_data_single s hc]
      dsimp only
      exact dictSet_dictSet_self _ _ _

/-- C4: with the station resolvable, decoding returns `none` — not an
error — exactly unless all six required fields (time, temperature,
dewpoint, pressure, wind direction, wind speed) are present; when they
are, a record is built and absent sea-level pressure or wind gust map to
the empty string. -/
theorem decodeReport_validity_gate (stations : List (String × Station))
    (metar_raw : String) (m : MetarDecoded) (station : Station)
    (hs : dictGet? stations m.station_id = some station) :
    (metar_valid m = true ↔
      (m.time.isSome = true ∧ m.temp.isSome = true ∧ m.dewpt.isSome = true ∧
        m.press.isSome = true ∧ m.wind_dir.isSome = true ∧
        m.wind_speed.isSome = true)) ∧
    (metar_valid m = false →
      fetch_data_from_raw_metar stations metar_raw m = .ok none) ∧
    (metar_valid m = true →
      ∃ rec, fetch_data_from_raw_metar stations metar_raw m = .ok (some rec) ∧
        rec.rawmetar = metar_raw ∧
        (m.press_sea_level = none → rec.pressuresea_mb = .emptyStr) ∧
        (m.wind_gust = none → rec.windgust_kt = .emptyStr)) := by
  refine ⟨?_, ?_, ?_⟩
  · unfold metar_valid
    simp [Bool.and_eq_true, and_assoc]
  · intro hv
    unfold fetch_data_from_raw_metar
    rw [hs]
    dsimp only
    rw [if_neg (by rw [hv]; exact Bool.false_ne_true)]
  · intro hv
    unfold fetch_data_from_raw_metar
    rw [hs]
    dsimp only
    rw [if_pos hv]
    refine ⟨_, rfl, rfl, ?_, ?_⟩
    · intro hnone
      dsimp only
      rw [hnone]
    · intro hnone
      dsimp only
      rw [hnone]

/-- C4 witness: a decoded report with a registered station missing only
wind speed yields `none`, not a thrown error. -/
theorem decodeReport_validity_gate_witness :
    fetch_data_from_raw_metar demoRegistry "RAW METAR" demoNoWindSpeed =
      .ok none :=
  (decodeReport_validity_gate demoRegistry "RAW METAR" demoNoWindSpeed
    demoStation rfl).2.1 rfl

/-- C5: a decoded report whose station identifier is absent from the
registry fails with the propagated `KeyError` of the dict lookup; it is
never `.ok` — neither a record nor a silent `none`. -/
theorem decodeReport_unknown_station (stations : List (String × Station))
    (metar_raw : String) (m : MetarDecoded)
    (hs : dictGet? stations m.station_id = none) :
    fetch_data_from_raw_metar stations metar_raw m =
      .error (.keyError m.station_id) ∧
    ∀ res : Option ObsRecord,
      fetch_data_from_raw_metar stations metar_raw m ≠ .ok res := by
  have he : fetch_data_from_raw_metar stations metar_raw m =
      .error (.keyError m.station_id) := by
    unfold fetch_data_from_raw_metar
    rw [hs]
  refine ⟨he, fun res hok => ?_⟩
  rw [he] at hok
  exact Except.noConfusion hok

/-- C5 witness: the unknown-station report raises the lookup error. -/
theorem decodeReport_unknown_station_witness :
    fetch_data_from_raw_metar demoRegistry "RAW METAR 2" demoUnknownStation =
      .error (.keyError "KABC") :=
  (decodeReport_unknown_station demoRegistry "RAW METAR 2" demoUnknownStation
    rfl).1

/-- C10: the registry lookup happens before the validity gate: a report
with an unknown station raises the lookup error even when it is also
missing a required field that would otherwise make decoding return
`none`. -/
theorem decodeReport_lookup_before_gate (stations : List (String × Station))
    (metar_raw : String) (m : MetarDecoded)
    (hs : dictGet? stations m.station_id = none)
    (hv : metar_valid m = false) :
    fetch_data_from_raw_metar stations metar_raw m =
      .error (.keyError m.station_id) ∧
    fetch_data_from_raw_metar stations metar_raw m ≠ .ok none := by
  have he : fetch_data_from_raw_metar stations metar_raw m =
      .error (.keyError m.station_id) := by
    unfold fetch_data_from_raw_metar
    rw [hs]
  refine ⟨he, fun hok => ?_⟩
  rw [he] at hok
  exact Except.noConfusion hok

/-- C10 witness: unknown station and missing wind speed still raise. -/
theorem decodeReport_lookup_before_gate_witness :
    fetch_data_from_raw_metar demoRegistry "RAW METAR 3" demoUnknownNoWind =
      .error (.keyError "KNOP") ∧
    fetch_data_from_raw_metar demoRegistry "RAW METAR 3" demoUnknownNoWind ≠
      .ok none :=
  decodeReport_lookup_before_gate demoRegistry "RAW METAR 3" demoUnknownNoWind
    rfl rfl

theorem latParse_demo : latParse "040 38N" = some (1219 / 30 : ℚ) := by
  have h := latParse_digits ['0', '4', '0'] ['3', '8'] 'N' (by decide) (by decide)
    (by decide) (by decide) (by decide)
  rw [show "040 38N" = (['0', '4', '0'] ++ ' ' :: (['3', '8'] ++ ['N'])).asString
    from rfl, h]
  rw [if_neg (by decide)]
  norm_num [show digitsVal ['0', '4', '0'] = 40 from by decide,
    show digitsVal ['3', '8'] = 38 from by decide]

theorem lngParse_demo : lngParse "073 46W" = some (-(2213 / 30) : ℚ) := by
  have h := lngParse_digits ['0', '7', '3'] ['4', '6'] 'W' (by decide) (by decide)
    (by decide) (by decide) (by decide)
  rw [show "073 46W" = (['0', '7', '3'] ++ ' ' :: (['4', '6'] ++ ['W'])).asString
    from rfl, h]
  rw [if_pos rfl]
  norm_num [show digitsVal ['0', '7', '3'] = 73 from by decide,
    show digitsVal ['4', '6'] = 46 from by decide]

theorem parseStation_demo : parseStation demoLine = some demoParsedStation := by
  unfold parseStation
  rw [show pyslice demoLine 39 46 = "040 38N" from by decide, latParse_demo,
    show pyslice demoLine 47 54 = "073 46W" from by decide, lngParse_demo]
  show some (⟨pyslice demoLine 0 2, pystrip (pyslice demoLine 3 19),
    pyslice demoLine 20 24, -(2213 / 30 : ℚ), 1219 / 30,
    pystrip (pyslice demoLine 55 59), demoLine⟩ : Station) = some demoParsedStation
  rw [show pyslice demoLine 0 2 = "NY" from by decide,
    show pystrip (pyslice demoLine 3 19) = "NEW YORK/JFK" from by decide,
    show pyslice demoLine 20 24 = "KJFK" from by decide,
    show pystrip (pyslice demoLine 55 59) = "13" from by decide]
  rfl

/-- C7: the registry parser keeps exactly the station rows — lines that
are non-blank, do not start with `!`, and are exactly 84 characters — and
skips every other line without error: whenever parsing succeeds, the
registry's keys are exactly the codes at columns 20–24 of such lines; and
the demo file of one header, one comment, one blank and one valid
84-character row yields the single-entry registry keyed "KJFK". -/
theorem fetch_stations_station_rows :
    (∀ (lines : List String) (reg : List (String × Station)),
      fetch_stations lines = some reg →
      ∀ k, k ∈ dictKeys reg ↔
        ∃ line ∈ lines, stationRow line = true ∧ pyslice line 20 24 = k) ∧
    fetch_stations [demoHeaderLine, demoCommentLine, demoBlankLine, demoLine] =
      some [("KJFK", demoParsedStation)] := by
  constructor
  · intro lines reg h k
    have h2 := fetch_stations_keys_aux lines [] reg h k
    simpa [dictKeys] using h2
  · unfold fetch_stations
    rw [List.foldlM_cons,
      show fetchStationsStep [] demoHeaderLine = some [] from by decide]
    show List.foldlM fetchStationsStep []
      [demoCommentLine, demoBlankLine, demoLine] = _
    rw [List.foldlM_cons,
      show fetchStationsStep [] demoCommentLine = some [] from by decide]
    show List.foldlM fetchStationsStep [] [demoBlankLine, demoLine] = _
    rw [List.foldlM_cons,
      show fetchStationsStep [] demoBlankLine = some [] from by decide]
    show List.foldlM fetchStationsStep [] [demoLine] = _
    rw [List.foldlM_cons]
    have hstep : fetchStationsStep [] demoLine =
        some [("KJFK", demoParsedStation)] := by
      unfold fetchStationsStep
      rw [if_neg (by decide), if_neg (by decide), if_neg (by decide),
        parseStation_demo]
      show some (dictSet [] (pyslice demoLine 20 24) demoParsedStation) = _
      rw [show pyslice demoLine 20 24 = "KJFK" from by decide]
      rfl
    rw [hstep]
    rfl

/-- C7 witness: the general characterization applied to the demo file and
its one-entry registry. -/
theorem fetch_stations_station_rows_witness :
    "KJFK" ∈ dictKeys [("KJFK", demoParsedStation)] ↔
      ∃ line ∈ [demoHeaderLine, demoCommentLine, demoBlankLine, demoLine],
        stationRow line = true ∧ pyslice line 20 24 = "KJFK" :=
  fetch_stations_station_rows.1 _ _ fetch_stations_station_rows.2 "KJFK"

/-- C8: for every coordinate string of the form `DD MM<hemisphere>` (any
digit strings for degrees and minutes, any non-space trailing character),
both parsers compute `degrees + minutes/60`, the latitude parser negates
exactly for `S` and the longitude parser exactly for `W`; in particular
`"40 26N"` parses to `1213/30 = +40.4333…` and `"73 59W"` to
`-(4439/60) = -73.9833…`, exactly over `ℚ`. -/
theorem coordinate_parsers_spec :
    (∀ (ds ms : List Char) (hem : Char),
      ds ≠ [] → ds.all Char.isDigit = true →
      ms ≠ [] → ms.all Char.isDigit = true →
      pyIsSpace hem = false →
      latParse (ds ++ ' ' :: (ms ++ [hem])).asString =
        some (if hem = 'S'
          then -((digitsVal ds : ℚ) + (digitsVal ms : ℚ) / 60)
          else (digitsVal ds : ℚ) + (digitsVal ms : ℚ) / 60) ∧
      lngParse (ds ++ ' ' :: (ms ++ [hem])).asString =
        some (if hem = 'W'
          then -((digitsVal ds : ℚ) + (digitsVal ms : ℚ) / 60)
          else (digitsVal ds : ℚ) + (digitsVal ms : ℚ) / 60)) ∧
    latParse "40 26N" = some (1213 / 30 : ℚ) ∧
    lngParse "73 59W" = some (-(4439 / 60) : ℚ) := by
  refine ⟨?_, ?_, ?_⟩
  · intro ds ms hem h1 h2 h3 h4 h5
    exact ⟨latParse_digits ds ms hem h1 h2 h3 h4 h5,
      lngParse_digits ds ms hem h1 h2 h3 h4 h5⟩
  · have h := latParse_digits ['4', '0'] ['2', '6'] 'N' (by decide) (by decide)
      (by decide) (by decide) (by decide)
    rw [show "40 26N" = (['4', '0'] ++ ' ' :: (['2', '6'] ++ ['N'])).asString
      from rfl, h, if_neg (by decide)]
    norm_num [show digitsVal ['4', '0'] = 40 from by decide,
      show digitsVal ['2', '6'] = 26 from by decide]
  · have h := lngParse_digits ['7', '3'] ['5', '9'] 'W' (by decide) (by decide)
      (by decide) (by decide) (by decide)
    rw [show "73 59W" = (['7', '3'] ++ ' ' :: (['5', '9'] ++ ['W'])).asString
      from rfl, h, if_pos rfl]
    norm_num [show digitsVal ['7', '3'] = 73 from by decide,
      show digitsVal ['5', '9'] = 59 from by decide]

/-- C8 witness: the general parser law applied at a concrete southern
coordinate, hypotheses discharged by computation. -/
theorem coordinate_parsers_spec_witness :
    latParse (['4', '0'] ++ ' ' :: (['2', '6'] ++ ['S'])).asString =
      some (if ('S' : Char) = 'S'
        then -((digitsVal ['4', '0'] : ℚ) + (digitsVal ['2', '6'] : ℚ) / 60)
        else (digitsVal ['4', '0'] : ℚ) + (digitsVal ['2', '6'] : ℚ) / 60) ∧
    lngParse (['4', '0'] ++ ' ' :: (['2', '6'] ++ ['S'])).asString =
      some (if ('S' : Char) = 'W'
        then -((digitsVal ['4', '0'] : ℚ) + (digitsVal ['2', '6'] : ℚ) / 60)
        else (digitsVal ['4', '0'] : ℚ) + (digitsVal ['2', '6'] : ℚ) / 60) :=
  coordinate_parsers_spec.1 ['4', '0'] ['2', '6'] 'S' (by decide) (by decide)
    (by decide) (by decide) (by decide)

/-- C9: relative humidity is exactly the ratio of the saturation vapor
pressure at the dewpoint to the one at the temperature, with
`saturationVaporPressure(T) = 611.2 * exp(17.67 T / (T + 243.5))`; the
ratio is `1` whenever dewpoint equals temperature (in particular at 20),
and no clamping to `[0,1]` is applied — at temperature 0 with dewpoint 10
the result exceeds 1. -/
theorem relative_humidity_ratio_spec :
    (∀ t d : ℝ, relative_humidity_from_dewpoint t d =
      saturation_vapor_pressure d / saturation_vapor_pressure t) ∧
    (∀ t : ℝ, saturation_vapor_pressure t =
      611.2 * Real.exp (17.67 * t / (t + 243.5))) ∧
    (∀ T : ℝ, relative_humidity_from_dewpoint T T = 1) ∧
    relative_humidity_from_dewpoint 20 20 = 1 ∧
    1 < relative_humidity_from_dewpoint 0 10 := by
  have hself : ∀ T : ℝ, relative_humidity_from_dewpoint T T = 1 := fun T =>
    div_self (ne_of_gt (saturation_vapor_pressure_pos T))
  refine ⟨fun t d => rfl, fun t => rfl, hself, hself 20, ?_⟩
  unfold relative_humidity_from_dewpoint saturation_vapor_pressure
  have h0 : (17.67 : ℝ) * 0 / (0 + 243.5) = 0 := by norm_num
  rw [h0, Real.exp_zero, mul_one]
  rw [mul_comm (611.2 : ℝ) (Real.exp _), mul_div_assoc,
    div_self (by norm_num : (611.2 : ℝ) ≠ 0), mul_one]
  have harg : (1 : ℝ) < 17.67 * 10 / (10 + 243.5) + 1 := by norm_num
  exact lt_of_lt_of_le harg (Real.add_one_le_exp _)
